import Mathlib

/-!
# Verification of `mermaid2img` (src/main.ts)

A shallow embedding, in Lean 4, of the pure core of `src/main.ts`:

* the diagram locator — the JavaScript regular expression
  `MERMAID_RE = /^```mermaid[^\n]*\n([\s\S]*?)^```\s*$/gm` used through
  `content.matchAll(MERMAID_RE)`;
* the replacement loop of `processFile` — the `for (let i = matches.length - 1;
  i >= 0; i--)` loop that renders each diagram, splices the replacement into the
  running `result` string at the span of the original match, counts failures,
  and finally writes the result to a derived output path;
* the replacement shaping (`\n${svg}\n`, base64 data URIs, `./mermaid/` file
  references), the output-path naming convention, the `--scale` parsing and
  clamping, and the recursive markdown-file discovery filter of
  `collectMarkdownFiles`.

Documents are modelled as `List Char`.  Machine strings, the browser, and the
filesystem are external collaborators; render outcomes enter the model as an
oracle `render : Nat → Option RenderOut` (`none` models a thrown exception in
`renderDiagram` / screenshot capture).
-/

namespace Mermaid2Img

/-! ## The diagram locator: JS regex `^```mermaid[^\n]*\n([\s\S]*?)^```\s*$` with flags `gm`

The JavaScript semantics modelled here, for the constructs the pattern uses:

* `^` with flag `m` matches at position 0 or right after a line terminator
  (`\n` or `\r`; the Unicode separators are ignored, the tool processes
  markdown files);
* `$` with flag `m` matches at the end of the input or right before a line
  terminator;
* `[^\n]*` is greedy over non-newline characters and, being followed by the
  literal `\n`, deterministically consumes up to the first `\n`;
* `([\s\S]*?)` is lazy: the shortest content for which the remainder of the
  pattern matches wins;
* `\s*` is greedy with backtracking: the longest whitespace run after which
  `$` still matches wins;
* flag `g` with `matchAll`: matches are found left to right, each search
  resuming at the previous match's end.
-/

/-- A line terminator for the `m`-flag anchors (`\n` or `\r`). -/
def lineTerm (c : Char) : Bool := c = '\n' || c = '\r'

/-- JS `\s` restricted to the ASCII whitespace characters. -/
def jsWs (c : Char) : Bool :=
  c = ' ' || c = '\t' || c = '\n' || c = '\r' || c = '\x0b' || c = '\x0c'

/-- The `m`-flag `^` anchor: start of input, or the previous character is a
line terminator. -/
def caretAt (s : List Char) (p : Nat) : Bool :=
  p == 0 ||
    (match s[p-1]? with
     | some c => lineTerm c
     | none => false)

/-- The `m`-flag `$` anchor: end of input, or the character at `p` is a line
terminator. -/
def dollarAt (s : List Char) (p : Nat) : Bool :=
  p == s.length ||
    (match s[p]? with
     | some c => lineTerm c
     | none => false)

/-- The literal opening fence `\`\`\`mermaid` (10 characters). -/
def FENCE_OPEN : List Char := '`' :: '`' :: '`' :: "mermaid".data

/-- The literal closing fence `\`\`\`` (3 characters). -/
def FENCE_CLOSE : List Char := ['`', '`', '`']

/-- Position of the first `'\n'` at index `≥ q` (the `\n` ending the
`\`\`\`mermaid[^\n]*` header line). -/
def firstNL (s : List Char) (q : Nat) : Option Nat :=
  match (s.drop q).findIdx? (fun c => c == '\n') with
  | some j => some (q + j)
  | none => none

/-- Length of the maximal `\s*` run starting at `q`. -/
def wsRunLen (s : List Char) (q : Nat) : Nat :=
  ((s.drop q).takeWhile jsWs).length

/-- Greedy-with-backtracking `\s*$` after the closing fence: the largest
`j' ≤ j` such that `$` matches at `q + j'`, scanned from the greedy maximum
downward.  Returns the match end `q + j'`. -/
def dollarBack (s : List Char) (q : Nat) : Nat → Option Nat
  | 0 => if dollarAt s q then some q else none
  | j+1 => if dollarAt s (q+j+1) then some (q+j+1) else dollarBack s q j

/-- Attempt the closing `^\`\`\`\s*$` at content end `p`; on success return
the overall match end. -/
def tryCloseAt (s : List Char) (p : Nat) : Option Nat :=
  if caretAt s p && FENCE_CLOSE.isPrefixOf (s.drop p) then
    dollarBack s (p + 3) (wsRunLen s (p + 3))
  else none

/-- The lazy `([\s\S]*?)` loop: the smallest content end `≥ p` at which the
closing fence matches.  Returns `(contentEnd, matchEnd)`.  `fuel` bounds the
candidate positions (instantiated so that all of `p .. s.length` are tried). -/
def findClose (s : List Char) : Nat → Nat → Option (Nat × Nat)
  | _, 0 => none
  | p, fuel+1 =>
    match tryCloseAt s p with
    | some me => some (p, me)
    | none => findClose s (p+1) fuel

/-- One match of `MERMAID_RE`: `start` is `match.index`, `me` the match end
(`start + match[0].length`), `[cs, ce)` the span of capture group 1. -/
structure MMatch where
  start : Nat
  cs : Nat
  ce : Nat
  me : Nat
deriving DecidableEq, Repr

/-- Attempt the whole pattern anchored exactly at position `p`. -/
def matchAt (s : List Char) (p : Nat) : Option MMatch :=
  if caretAt s p && FENCE_OPEN.isPrefixOf (s.drop p) then
    match firstNL s (p + 10) with
    | some nl =>
      match findClose s (nl + 1) (s.length + 1 - (nl + 1)) with
      | some (ce, me) => some ⟨p, nl + 1, ce, me⟩
      | none => none
    | none => none
  else none

/-- Leftmost match at a position `≥ p` (the engine slides the start position
right until the pattern matches). -/
def findFrom (s : List Char) : Nat → Nat → Option MMatch
  | _, 0 => none
  | p, fuel+1 =>
    match matchAt s p with
    | some m => some m
    | none => findFrom s (p+1) fuel

/-- `matchAll` with the `g` flag: repeatedly find the next match, resuming at
the previous match's end (`lastIndex`). -/
def matchAllFrom (s : List Char) : Nat → Nat → List MMatch
  | _, 0 => []
  | p, fuel+1 =>
    match findFrom s p (s.length + 1 - p) with
    | some m => m :: matchAllFrom s m.me fuel
    | none => []

/-- `[...content.matchAll(MERMAID_RE)]` of `processFile`. -/
def mermaidMatches (s : List Char) : List MMatch :=
  matchAllFrom s 0 (s.length + 1)

/-! ## Spans and the replacement loop of `processFile` -/

/-- A half-open character span `[start, stop)` into the original document:
`start = match.index`, `stop = start + match[0].length`. -/
structure Span where
  start : Nat
  stop : Nat
deriving DecidableEq, Repr

/-- The span of a match. -/
def spanOf (m : MMatch) : Span := ⟨m.start, m.me⟩

/-- The span list `processFile` derives from the match list. -/
def spansOf (s : List Char) : List Span := (mermaidMatches s).map spanOf

/-- The slice `content.slice(sp.start, sp.stop)` of the original document. -/
def sliceSpan (doc : List Char) (sp : Span) : List Char :=
  (doc.drop sp.start).take (sp.stop - sp.start)

/-- One iteration's update of `result`:
`result = result.slice(0, start) + replacement + result.slice(end)` on
success; on failure (`none`) `result` is left untouched. -/
def spliceOne (res : List Char) (sp : Span) : Option (List Char) → List Char
  | some rep => res.take sp.start ++ rep ++ res.drop sp.stop
  | none => res

/-- The `for (let i = matches.length - 1; i >= 0; i--)` loop of `processFile`
over a list of decisions ordered by document position (index `i` = position in
the list).  Returns the final `result` text, the `failures` counter, and the
trace of span starts in the order the loop attempted to render them (the order
of the `renderDiagram` calls and progress messages).  The last list element is
processed first, so in the recursion the tail's processing happens before the
head's. -/
def processFileLoop (doc : List Char) :
    List (Span × Option (List Char)) → List Char × Nat × List Nat
  | [] => (doc, 0, [])
  | (sp, r) :: rest =>
    let acc := processFileLoop doc rest
    (spliceOne acc.1 sp r,
     acc.2.1 + (if r.isNone then 1 else 0),
     acc.2.2 ++ [sp.start])

/-! ## Render outcomes and replacement shaping -/

/-- Output format: `--svg` or `--jpg` (the default). -/
inductive Fmt | svg | jpg
deriving DecidableEq, Repr

/-- Raster embedding mode: `--b64` (the default) or `--files`. -/
inductive Mode | b64 | files
deriving DecidableEq, Repr

/-- The result of `renderDiagram`: the SVG markup extracted from the DOM and,
when `--jpg` capture succeeded, the screenshot (carried here as the base64
text that `jpg.toString("base64")` produces from its bytes; the bytes
themselves are opaque to the core). -/
structure RenderOut where
  svgMarkup : List Char
  jpgData : Option (List Char)
deriving DecidableEq, Repr

/-- The replacement string built inside the `try` block of `processFile` for
the diagram at 0-based document-order index `i`, or `none` for the
`throw new Error("Screenshot capture failed")` path (`fmt === "jpg"` but no
screenshot). -/
def shape (fmt : Fmt) (mode : Mode) (base : List Char) (i : Nat)
    (ro : RenderOut) : Option (List Char) :=
  match fmt with
  | .svg => some ('\n' :: (ro.svgMarkup ++ ['\n']))
  | .jpg =>
    match ro.jpgData with
    | none => none
    | some data =>
      match mode with
      | .b64 =>
        some ("![Diagram ".data ++ (Nat.repr (i+1)).data ++
              "](data:image/jpeg;base64,".data ++ data ++ ")".data)
      | .files =>
        some ("![Diagram ".data ++ (Nat.repr (i+1)).data ++
              "](./mermaid/".data ++ base ++ "-".data ++
              (Nat.repr (i+1)).data ++ ".jpg)".data)

/-- The decision for one diagram: the span together with the replacement, or
`none` when `renderDiagram` threw (`render i = none`) or the shaping threw
(missing screenshot). -/
def decisionsFrom (fmt : Fmt) (mode : Mode) (base : List Char)
    (render : Nat → Option RenderOut) :
    Nat → List Span → List (Span × Option (List Char))
  | _, [] => []
  | i, sp :: rest =>
    (sp, (render i).bind (shape fmt mode base i)) ::
      decisionsFrom fmt mode base render (i+1) rest

/-! ## Output naming and the whole-document model -/

/-- `path.join(dir, name)` for the simple two-component joins the tool
performs. -/
def joinPath (dir name : List Char) : List Char := dir ++ "/".data ++ name

/-- The output path of `processFile`:
`join(dir, base + (fmt === "svg" ? "_mermaid2svg" : "_mermaid2jpg") + ext)`. -/
def outPath (dir base ext : List Char) (fmt : Fmt) : List Char :=
  joinPath dir (base ++ (match fmt with
    | .svg => "_mermaid2svg".data
    | .jpg => "_mermaid2jpg".data) ++ ext)

/-- The path the `--files` branch writes the `i`-th diagram's screenshot to:
`join(join(dir, "mermaid"), base + "-" + (i+1) + ".jpg")`. -/
def diagramFilePath (dir base : List Char) (i : Nat) : List Char :=
  joinPath (joinPath dir "mermaid".data)
    (base ++ "-".data ++ (Nat.repr (i+1)).data ++ ".jpg".data)

/-- The pure content of `processFile`: `none` models the early
`if (!matches.length) return false` (no output file written, `processed` not
incremented); `some (path, text, failures)` models the unconditional
`writeFile(outPath, result)` at the end together with `return true`. -/
def processFileModel (fmt : Fmt) (mode : Mode) (render : Nat → Option RenderOut)
    (dir base ext content : List Char) :
    Option (List Char × List Char × Nat) :=
  let spans := spansOf content
  if spans.isEmpty then none
  else
    let ds := decisionsFrom fmt mode base render 0 spans
    let out := processFileLoop content ds
    some (outPath dir base ext fmt, out.1, out.2.1)

/-- `main`'s `processed` counter over a batch of documents: incremented once
per document for which `processFile` returned `true`. -/
def processedCount (fmt : Fmt) (mode : Mode) (render : Nat → Option RenderOut)
    (dir base ext : List Char) (docs : List (List Char)) : Nat :=
  docs.countP (fun c => (processFileModel fmt mode render dir base ext c).isSome)

/-- The ordering invariant of an emitted match list: each match starts at or
after `p`, is nonempty, ends within the document, and the next match starts at
or after its end. -/
def ChainFrom (L : Nat) : Nat → List MMatch → Prop
  | _, [] => True
  | p, m :: rest => p ≤ m.start ∧ m.start < m.me ∧ m.me ≤ L ∧
      ChainFrom L m.me rest

/-- Well-formedness of a decision list relative to the document: spans are
within bounds, each has `start ≤ stop`, and they are non-overlapping and
sorted ascending by `start` starting at or after `p`. -/
def spansOK (doc : List Char) : Nat → List (Span × Option (List Char)) → Bool
  | _, [] => true
  | p, (sp, _) :: rest =>
    decide (p ≤ sp.start) && decide (sp.start ≤ sp.stop) &&
      decide (sp.stop ≤ doc.length) && spansOK doc sp.stop rest

/-- The intended final text, assembled left to right from position `p`: the
untouched document segment before each span, then the span's replacement (or,
for a `Failed` span, its original slice verbatim), and after the last span the
untouched tail of the document. -/
def glue (doc : List Char) : Nat → List (Span × Option (List Char)) → List Char
  | p, [] => doc.drop p
  | p, (sp, r) :: rest =>
    (doc.drop p).take (sp.start - p) ++ r.getD (sliceSpan doc sp) ++
      glue doc sp.stop rest

/-! ## The `--scale` option

`const rawScale = parseInt(values.scale ?? "2", 10); if (Number.isNaN(rawScale))
{ fatal } const scale = Math.max(1, Math.min(4, rawScale));` -/

/-- A decimal digit. -/
def isDigit10 (c : Char) : Bool := '0' ≤ c && c ≤ '9'

/-- Value of a nonempty digit string. -/
def digitsVal (ds : List Char) : Nat :=
  ds.foldl (fun a c => a * 10 + (c.toNat - '0'.toNat)) 0

/-- JavaScript `parseInt(s, 10)`: skip leading whitespace, consume an optional
sign, then the longest prefix of decimal digits; `none` models `NaN` (no
digits found). -/
def parseIntJS (s : List Char) : Option Int :=
  let t := s.dropWhile jsWs
  let su : Int × List Char :=
    match t with
    | '-' :: r => (-1, r)
    | '+' :: r => (1, r)
    | r => (1, r)
  let ds := su.2.takeWhile isDigit10
  if ds.isEmpty then none
  else some (su.1 * (digitsVal ds : Int))

/-- `rawScale`: the parse of `values.scale ?? "2"`; `none` is the fatal
`--scale must be a number (1-4)` exit. -/
def rawScale (arg : Option (List Char)) : Option Int :=
  parseIntJS (arg.getD "2".data)

/-- The session-wide `scale` constant: `Math.max(1, Math.min(4, rawScale))`,
undefined (fatal) only when `rawScale` is `NaN`. -/
def scaleOf (arg : Option (List Char)) : Option Int :=
  (rawScale arg).map (fun r => max 1 (min 4 r))

/-! ## Document discovery: `collectMarkdownFiles` and `main`'s file list -/

/-- A filesystem tree as `readdir(dir, { withFileTypes: true })` exposes it:
named files and named directories with their entries in listing order. -/
inductive FSEntry where
  | file (name : List Char) : FSEntry
  | dir (name : List Char) (entries : List FSEntry) : FSEntry

/-- JS `hay.includes(needle)`: the needle occurs as a contiguous substring. -/
def listIncludes (needle : List Char) : List Char → Bool
  | [] => needle.isEmpty
  | c :: rest => needle.isPrefixOf (c :: rest) || listIncludes needle rest

/-- `entry.name.endsWith(".md") && !entry.name.includes("_mermaid2")`. -/
def mdFilter (name : List Char) : Bool :=
  ".md".data.isSuffixOf name && !(listIncludes "_mermaid2".data name)

/-- `collectMarkdownFiles(dir)`: depth-first walk in listing order, selecting
exactly the file entries passing `mdFilter` and recursing into directories. -/
def collectMarkdownFiles (dirPath : List Char) : List FSEntry → List (List Char)
  | [] => []
  | .file n :: rest =>
    (if mdFilter n then [joinPath dirPath n] else []) ++
      collectMarkdownFiles dirPath rest
  | .dir n es :: rest =>
    collectMarkdownFiles (joinPath dirPath n) es ++
      collectMarkdownFiles dirPath rest

/-- All file entries of a tree, as (directory path, file name) pairs in the
same depth-first listing order, with no filtering. -/
def allFiles (dirPath : List Char) : List FSEntry → List (List Char × List Char)
  | [] => []
  | .file n :: rest => (dirPath, n) :: allFiles dirPath rest
  | .dir n es :: rest =>
    allFiles (joinPath dirPath n) es ++ allFiles dirPath rest

/-- `main`'s file list: `info.isDirectory() ? await collectMarkdownFiles(mdPath)
: [mdPath]` — the filter runs only in the directory branch. -/
def discover (isDir : Bool) (mdPath : List Char) (entries : List FSEntry) :
    List (List Char) :=
  if isDir then collectMarkdownFiles mdPath entries else [mdPath]

/-! ## Concrete inputs used to witness the theorems -/

/-- A document with two mermaid diagrams separated by a line of text. -/
def exDoc : List Char := "```mermaid\nA\n```\nx\n```mermaid\nB\n```\n".data

/-- A renderer oracle that always succeeds. -/
def exRenderOk : Nat → Option RenderOut :=
  fun _ => some ⟨"<svg>S</svg>".data, some "QUJD".data⟩

/-- A renderer oracle that throws on the first diagram only. -/
def exRenderFail0 : Nat → Option RenderOut :=
  fun i => if i == 0 then none else exRenderOk i

/-- A renderer oracle that always throws. -/
def exRenderNone : Nat → Option RenderOut := fun _ => none

/-- The decisions for `exDoc` in svg mode under `exRenderFail0`. -/
def exDs : List (Span × Option (List Char)) :=
  decisionsFrom Fmt.svg Mode.b64 "doc".data exRenderFail0 0 (spansOf exDoc)

/-- The decisions for `exDoc` in svg mode under the always-succeeding
renderer. -/
def exDsOk : List (Span × Option (List Char)) :=
  decisionsFrom Fmt.svg Mode.b64 "doc".data exRenderOk 0 (spansOf exDoc)

/-- A directory listing with a plain markdown file, a previously generated
output of this tool, a subdirectory with another markdown file, and a
non-markdown file. -/
def exTree : List FSEntry :=
  [.file "a.md".data,
   .file "a_mermaid2svg.md".data,
   .dir "sub".data [.file "b.md".data],
   .file "notes.txt".data]

/-! ## Soundness of the locator model -/

theorem dollarAt_le_length {s : List Char} {p : Nat} (h : dollarAt s p = true) :
    p ≤ s.length := by
  unfold dollarAt at h
  by_cases hp : p = s.length
  · exact Nat.le_of_eq hp
  · have hb : (p == s.length) = false := by simpa using hp
    rw [hb, Bool.false_or] at h
    cases hg : s[p]? with
    | none => rw [hg] at h; exact absurd h (by simp)
    | some c =>
      by_contra hn
      have hge : s.length ≤ p := Nat.le_of_not_le hn
      rw [List.getElem?_eq_none hge] at hg
      exact absurd hg (by simp)

theorem dollarBack_sound {s : List Char} {q m : Nat} :
    ∀ j, dollarBack s q j = some m → dollarAt s m = true ∧ q ≤ m := by
  intro j
  induction j with
  | zero =>
    intro h
    unfold dollarBack at h
    split at h
    · cases h; exact ⟨by assumption, Nat.le_refl _⟩
    · cases h
  | succ j ih =>
    intro h
    unfold dollarBack at h
    split at h
    · cases h; exact ⟨by assumption, by omega⟩
    · exact ⟨(ih h).1, (ih h).2⟩

theorem tryCloseAt_sound {s : List Char} {p me : Nat}
    (h : tryCloseAt s p = some me) :
    caretAt s p = true ∧ FENCE_CLOSE.isPrefixOf (s.drop p) = true ∧
    dollarAt s me = true ∧ p + 3 ≤ me := by
  unfold tryCloseAt at h
  split at h
  · next hguard =>
    rw [Bool.and_eq_true] at hguard
    have hd := dollarBack_sound _ h
    exact ⟨hguard.1, hguard.2, hd.1, hd.2⟩
  · cases h

theorem findClose_sound {s : List Char} {ce me : Nat} :
    ∀ fuel p, findClose s p fuel = some (ce, me) →
      p ≤ ce ∧ tryCloseAt s ce = some me := by
  intro fuel
  induction fuel with
  | zero => intro p h; cases h
  | succ fuel ih =>
    intro p h
    unfold findClose at h
    split at h
    · next heq => cases h; exact ⟨Nat.le_refl _, heq⟩
    · have := ih (p+1) h
      exact ⟨Nat.le_of_succ_le this.1, this.2⟩

theorem firstNL_ge {s : List Char} {q nl : Nat} (h : firstNL s q = some nl) :
    q ≤ nl := by
  unfold firstNL at h
  split at h
  · cases h; exact Nat.le_add_right _ _
  · cases h

theorem matchAt_sound {s : List Char} {p : Nat} {m : MMatch}
    (h : matchAt s p = some m) :
    m.start = p ∧ caretAt s p = true ∧
    FENCE_OPEN.isPrefixOf (s.drop p) = true ∧
    p + 11 ≤ m.cs ∧ m.cs ≤ m.ce ∧ m.ce + 3 ≤ m.me ∧
    caretAt s m.ce = true ∧ FENCE_CLOSE.isPrefixOf (s.drop m.ce) = true ∧
    dollarAt s m.me = true := by
  unfold matchAt at h
  split at h
  · next hguard =>
    rw [Bool.and_eq_true] at hguard
    have hg := hguard
    split at h
    · next nl hnl =>
      split at h
      · next ce me hfc =>
        cases h
        have hge := firstNL_ge hnl
        have hfcs := findClose_sound _ _ hfc
        have htc := tryCloseAt_sound hfcs.2
        refine ⟨rfl, hg.1, hg.2, ?_, ?_, ?_, htc.1, htc.2.1, htc.2.2.1⟩
        · show p + 11 ≤ nl + 1
          omega
        · show nl + 1 ≤ ce
          exact hfcs.1
        · show ce + 3 ≤ me
          exact htc.2.2.2
      · cases h
    · cases h
  · cases h

theorem matchAt_start_lt_me {s : List Char} {p : Nat} {m : MMatch}
    (h : matchAt s p = some m) : m.start < m.me := by
  have hs := matchAt_sound h
  omega

theorem matchAt_me_le_length {s : List Char} {p : Nat} {m : MMatch}
    (h : matchAt s p = some m) : m.me ≤ s.length :=
  dollarAt_le_length (matchAt_sound h).2.2.2.2.2.2.2.2

theorem findFrom_sound {s : List Char} {m : MMatch} :
    ∀ fuel p, findFrom s p fuel = some m →
      p ≤ m.start ∧ matchAt s m.start = some m := by
  intro fuel
  induction fuel with
  | zero => intro p h; cases h
  | succ fuel ih =>
    intro p h
    unfold findFrom at h
    split at h
    · next heq =>
      cases h
      have := (matchAt_sound heq).1
      exact ⟨Nat.le_of_eq this.symm, by rw [this]; exact heq⟩
    · have := ih (p+1) h
      exact ⟨Nat.le_of_succ_le this.1, this.2⟩

/-- Every emitted match really is a match of the pattern at its own start. -/
theorem matchAllFrom_mem_sound {s : List Char} {m : MMatch} :
    ∀ fuel p, m ∈ matchAllFrom s p fuel → matchAt s m.start = some m := by
  intro fuel
  induction fuel with
  | zero => intro p h; cases h
  | succ fuel ih =>
    intro p h
    unfold matchAllFrom at h
    split at h
    · next m' hm' =>
      rcases List.mem_cons.mp h with h1 | h2
      · subst h1; exact (findFrom_sound _ _ hm').2
      · exact ih _ h2
    · cases h

theorem mermaidMatches_mem_sound {s : List Char} {m : MMatch}
    (h : m ∈ mermaidMatches s) : matchAt s m.start = some m :=
  matchAllFrom_mem_sound _ _ h

theorem matchAllFrom_chain {s : List Char} :
    ∀ fuel p, ChainFrom s.length p (matchAllFrom s p fuel) := by
  intro fuel
  induction fuel with
  | zero => intro p; trivial
  | succ fuel ih =>
    intro p
    unfold matchAllFrom
    split
    · next m hm =>
      have hf := findFrom_sound _ _ hm
      exact ⟨hf.1, matchAt_start_lt_me hf.2, matchAt_me_le_length hf.2, ih m.me⟩
    · trivial

theorem mermaidMatches_chain (s : List Char) :
    ChainFrom s.length 0 (mermaidMatches s) :=
  matchAllFrom_chain _ 0

theorem ChainFrom_start_ge {L : Nat} {l : List MMatch} {m : MMatch} :
    ∀ p, ChainFrom L p l → m ∈ l → p ≤ m.start := by
  induction l with
  | nil => intro p _ h; cases h
  | cons a rest ih =>
    intro p hc hm
    rcases List.mem_cons.mp hm with h1 | h2
    · subst h1; exact hc.1
    · have h1 := hc.1
      have h2' := hc.2.1
      have := ih a.me hc.2.2.2 h2
      omega

theorem ChainFrom_pairwise {L : Nat} {l : List MMatch} :
    ∀ p, ChainFrom L p l →
      l.Pairwise (fun a b => a.start < b.start ∧ a.me ≤ b.start) := by
  induction l with
  | nil => intro _ _; exact List.Pairwise.nil
  | cons a rest ih =>
    intro p hc
    refine List.Pairwise.cons ?_ (ih a.me hc.2.2.2)
    intro b hb
    have hge := ChainFrom_start_ge a.me hc.2.2.2 hb
    have h1 := hc.2.1
    exact ⟨by omega, hge⟩

/-! ## The replacement compositor: reverse-order splicing is offset-safe -/

theorem take_take_of_le (doc : List Char) {a b : Nat} (h : a ≤ b) :
    (doc.take b).take a = doc.take a := by
  rw [List.take_take]
  exact congrArg doc.take (Nat.min_eq_left h)

theorem take_split (doc : List Char) {a b : Nat} (h : a ≤ b) :
    doc.take b = doc.take a ++ (doc.drop a).take (b - a) := by
  have e : a + (b - a) = b := by omega
  calc doc.take b = doc.take (a + (b - a)) := by rw [e]
    _ = doc.take a ++ (doc.drop a).take (b - a) := List.take_add doc a (b - a)

/-- Offset safety of the reverse-order loop: for any well-formed decision
list, the reverse-document-order splicing of `processFile` produces exactly
the left-to-right gluing of untouched segments and replacements.  Replacement
lengths are arbitrary. -/
theorem processFileLoop_text (doc : List Char) :
    ∀ ds p, spansOK doc p ds = true →
      (processFileLoop doc ds).1 = doc.take p ++ glue doc p ds := by
  intro ds
  induction ds with
  | nil =>
    intro p _
    exact (List.take_append_drop p doc).symm
  | cons d rest ih =>
    obtain ⟨sp, r⟩ := d
    intro p hok
    simp only [spansOK, Bool.and_eq_true, decide_eq_true_eq] at hok
    obtain ⟨⟨⟨h1, h2⟩, h3⟩, h4⟩ := hok
    have ihr := ih sp.stop h4
    have hlen : (doc.take sp.stop).length = sp.stop := by
      rw [List.length_take]; omega
    have e1 : doc.take sp.start = doc.take p ++ (doc.drop p).take (sp.start - p) :=
      take_split doc h1
    cases r with
    | none =>
      show (processFileLoop doc rest).1 = _
      rw [ihr]
      have e2 : doc.take sp.stop =
          doc.take sp.start ++ (doc.drop sp.start).take (sp.stop - sp.start) :=
        take_split doc h2
      rw [e2, e1]
      simp [glue, sliceSpan, List.append_assoc]
    | some rep =>
      show (processFileLoop doc rest).1.take sp.start ++ rep ++
          (processFileLoop doc rest).1.drop sp.stop = _
      rw [ihr]
      have etake : (doc.take sp.stop ++ glue doc sp.stop rest).take sp.start =
          doc.take sp.start := by
        rw [List.take_append_eq_append_take, hlen]
        have : sp.start - sp.stop = 0 := by omega
        rw [this, List.take_zero, List.append_nil, take_take_of_le doc h2]
      have edrop : (doc.take sp.stop ++ glue doc sp.stop rest).drop sp.stop =
          glue doc sp.stop rest := by
        rw [List.drop_append_eq_append_drop, hlen]
        have h0 : sp.stop - sp.stop = 0 := by omega
        rw [h0, List.drop_zero, List.drop_take, h0, List.take_zero,
          List.nil_append]
      rw [etake, edrop, e1]
      simp [glue, List.append_assoc]

/-- The `failures` counter equals the number of `Failed` decisions. -/
theorem processFileLoop_failures (doc : List Char) :
    ∀ ds, (processFileLoop doc ds).2.1 =
      ds.countP (fun d => d.2.isNone) := by
  intro ds
  induction ds with
  | nil => rfl
  | cons d rest ih =>
    obtain ⟨sp, r⟩ := d
    show (processFileLoop doc rest).2.1 + _ = _
    rw [ih, List.countP_cons]

/-- The render attempts (progress messages) happen in exactly the reverse of
the decision-list (document) order, one per diagram, regardless of any
outcome. -/
theorem processFileLoop_trace (doc : List Char) :
    ∀ ds, (processFileLoop doc ds).2.2 =
      (ds.map (fun d => d.1.start)).reverse := by
  intro ds
  induction ds with
  | nil => rfl
  | cons d rest ih =>
    obtain ⟨sp, r⟩ := d
    show (processFileLoop doc rest).2.2 ++ [sp.start] = _
    rw [ih, List.map_cons, List.reverse_cons]

/-- Every decision's payload (its replacement, or for a failed span its
original slice verbatim) occurs contiguously in the glued text. -/
theorem glue_infix (doc : List Char) :
    ∀ ds p sp r, (sp, r) ∈ ds →
      ∃ pre post, glue doc p ds =
        pre ++ r.getD (sliceSpan doc sp) ++ post := by
  intro ds
  induction ds with
  | nil => intro p sp r h; cases h
  | cons d rest ih =>
    intro p sp r h
    obtain ⟨sp', r'⟩ := d
    rcases List.mem_cons.mp h with h1 | h2
    · cases h1
      exact ⟨(doc.drop p).take (sp.start - p), glue doc sp.stop rest, rfl⟩
    · obtain ⟨pre, post, hpp⟩ := ih sp'.stop sp r h2
      exact ⟨(doc.drop p).take (sp'.start - p) ++ r'.getD (sliceSpan doc sp') ++ pre,
             post, by rw [glue, hpp]; simp [List.append_assoc]⟩

/-- When every decision failed, the loop leaves the document unchanged. -/
theorem processFileLoop_allNone (doc : List Char) :
    ∀ ds, (∀ d ∈ ds, d.2 = none) → (processFileLoop doc ds).1 = doc := by
  intro ds
  induction ds with
  | nil => intro _; rfl
  | cons d rest ih =>
    intro h
    obtain ⟨sp, r⟩ := d
    have hr : r = none := h (sp, r) (List.mem_cons_self _ _)
    subst hr
    show (processFileLoop doc rest).1 = doc
    exact ih (fun d hd => h d (List.mem_cons_of_mem _ hd))

/-! ## Decisions keep the locator's spans -/

theorem decisionsFrom_map_fst (fmt : Fmt) (mode : Mode) (base : List Char)
    (render : Nat → Option RenderOut) :
    ∀ spans i, (decisionsFrom fmt mode base render i spans).map Prod.fst = spans := by
  intro spans
  induction spans with
  | nil => intro i; rfl
  | cons sp rest ih =>
    intro i
    simp only [decisionsFrom, List.map_cons]
    exact congrArg (sp :: ·) (ih (i+1))

theorem decisionsFrom_getElem? (fmt : Fmt) (mode : Mode) (base : List Char)
    (render : Nat → Option RenderOut) :
    ∀ spans i k, (decisionsFrom fmt mode base render i spans)[k]? =
      spans[k]?.map (fun sp =>
        (sp, (render (i+k)).bind (shape fmt mode base (i+k)))) := by
  intro spans
  induction spans with
  | nil => intro i k; rfl
  | cons sp rest ih =>
    intro i k
    cases k with
    | zero => simp [decisionsFrom]
    | succ k =>
      have e : i + 1 + k = i + (k + 1) := by omega
      simp only [decisionsFrom, List.getElem?_cons_succ]
      rw [ih (i+1) k, e]

/-- For decisions built from the locator's matches, the well-formedness that
the offset-safety theorem needs holds. -/
theorem spansOK_of_chainFrom (doc : List Char) (fmt : Fmt) (mode : Mode)
    (base : List Char) (render : Nat → Option RenderOut) :
    ∀ (ms : List MMatch) p i, ChainFrom doc.length p ms →
      spansOK doc p (decisionsFrom fmt mode base render i (ms.map spanOf)) = true := by
  intro ms
  induction ms with
  | nil => intro p i _; rfl
  | cons mm rest ih =>
    intro p i hc
    show spansOK doc p ((⟨mm.start, mm.me⟩, _) :: _) = true
    simp only [spansOK, Bool.and_eq_true, decide_eq_true_eq]
    have h1 := hc.1
    have h2 := hc.2.1
    have h3 := hc.2.2.1
    exact ⟨⟨⟨h1, by omega⟩, h3⟩, ih mm.me (i+1) hc.2.2.2⟩

theorem spansOK_spansOf (doc : List Char) (fmt : Fmt) (mode : Mode)
    (base : List Char) (render : Nat → Option RenderOut) :
    spansOK doc 0 (decisionsFrom fmt mode base render 0 (spansOf doc)) = true :=
  spansOK_of_chainFrom doc fmt mode base render (mermaidMatches doc) 0 0
    (mermaidMatches_chain doc)

/-! ## Remaining helper lemmas -/

theorem caretAt_spec {s : List Char} {p : Nat} (h : caretAt s p = true) :
    p = 0 ∨ ∃ c, s[p-1]? = some c ∧ lineTerm c = true := by
  unfold caretAt at h
  by_cases hp : p = 0
  · exact Or.inl hp
  · right
    have hb : (p == 0) = false := by simpa using hp
    rw [hb, Bool.false_or] at h
    cases hg : s[p-1]? with
    | none => rw [hg] at h; exact absurd h (by simp)
    | some c => rw [hg] at h; exact ⟨c, rfl, h⟩

theorem dollarAt_spec {s : List Char} {p : Nat} (h : dollarAt s p = true) :
    p = s.length ∨ ∃ c, s[p]? = some c ∧ lineTerm c = true := by
  unfold dollarAt at h
  by_cases hp : p = s.length
  · exact Or.inl hp
  · right
    have hb : (p == s.length) = false := by simpa using hp
    rw [hb, Bool.false_or] at h
    cases hg : s[p]? with
    | none => rw [hg] at h; exact absurd h (by simp)
    | some c => rw [hg] at h; exact ⟨c, rfl, h⟩

/-- `collectMarkdownFiles` selects exactly the file entries whose names pass
`mdFilter`, in listing order, joined to their directory path. -/
theorem collect_eq_filter : ∀ (es : List FSEntry) (d : List Char),
    collectMarkdownFiles d es =
      ((allFiles d es).filter (fun e => mdFilter e.2)).map
        (fun e => joinPath e.1 e.2)
  | [], _ => by simp [collectMarkdownFiles, allFiles]
  | .file n :: rest, d => by
    simp only [collectMarkdownFiles, allFiles, List.filter_cons]
    cases hf : mdFilter n with
    | true => simp [hf, collect_eq_filter rest d]
    | false => simp [hf, collect_eq_filter rest d]
  | .dir n es :: rest, d => by
    simp only [collectMarkdownFiles, allFiles, List.filter_append,
      List.map_append]
    rw [collect_eq_filter es (joinPath d n), collect_eq_filter rest d]

/-- When the renderer throws on every diagram, every decision is `Failed`. -/
theorem decisionsFrom_allNone (fmt : Fmt) (mode : Mode) (base : List Char)
    (render : Nat → Option RenderOut) (hr : ∀ j, render j = none) :
    ∀ spans i d, d ∈ decisionsFrom fmt mode base render i spans →
      d.2 = none := by
  intro spans
  induction spans with
  | nil => intro i d h; cases h
  | cons sp rest ih =>
    intro i d h
    rcases List.mem_cons.mp h with h1 | h2
    · subst h1; simp [hr i]
    · exact ih (i+1) d h2

/-! ## The claims -/

/-- Claim C1 (offset-safety of replacement): for every document and every
well-formed decision list (non-overlapping, start-sorted spans), the
reverse-document-order splicing of `processFile` yields exactly the
left-to-right gluing of the document: every character outside all spans
appears unchanged and in the same relative order (the segments
`doc[0..s1)`, `doc[e1..s2)`, …, `doc[en..)` of `glue`), with rendered spans
replaced by their replacement text and failed spans' slices left untouched,
for arbitrary replacement lengths. -/
theorem claim_C1_offset_safety (doc : List Char)
    (ds : List (Span × Option (List Char))) (h : spansOK doc 0 ds = true) :
    (processFileLoop doc ds).1 = glue doc 0 ds := by
  have ht := processFileLoop_text doc ds 0 h
  simpa using ht

theorem claim_C1_offset_safety_witness :
    spansOK "abcdef".data 0
      [((⟨1,2⟩ : Span), some "XYZW".data), ((⟨3,5⟩ : Span), none)] = true ∧
    (processFileLoop "abcdef".data
      [((⟨1,2⟩ : Span), some "XYZW".data), ((⟨3,5⟩ : Span), none)]).1 =
      glue "abcdef".data 0
        [((⟨1,2⟩ : Span), some "XYZW".data), ((⟨3,5⟩ : Span), none)] :=
  ⟨by decide, claim_C1_offset_safety "abcdef".data
    [((⟨1,2⟩ : Span), some "XYZW".data), ((⟨3,5⟩ : Span), none)] (by decide)⟩

/-- Claim C2 (per-diagram failure isolation): for the decision list built
from a document's matches, the failure counter equals the number of failed
decisions, the loop attempts every diagram exactly once (its trace lists
every span start, independent of any outcome), and every decision's payload
— for a failed span its original source slice verbatim, for a rendered span
its replacement — appears contiguously in the output text; no failure aborts
the loop. -/
theorem claim_C2_failure_isolation (doc base : List Char) (fmt : Fmt)
    (mode : Mode) (render : Nat → Option RenderOut)
    (ds : List (Span × Option (List Char)))
    (hds : ds = decisionsFrom fmt mode base render 0 (spansOf doc)) :
    (processFileLoop doc ds).2.1 = ds.countP (fun d => d.2.isNone) ∧
    (processFileLoop doc ds).2.2 = (ds.map (fun d => d.1.start)).reverse ∧
    ∀ sp r, (sp, r) ∈ ds → ∃ pre post,
      (processFileLoop doc ds).1 = pre ++ r.getD (sliceSpan doc sp) ++ post := by
  refine ⟨processFileLoop_failures doc ds, processFileLoop_trace doc ds, ?_⟩
  intro sp r hm
  have hok : spansOK doc 0 ds = true := by
    rw [hds]; exact spansOK_spansOf doc fmt mode base render
  have htext := processFileLoop_text doc ds 0 hok
  rw [htext]
  simpa using glue_infix doc ds 0 sp r hm

theorem claim_C2_failure_isolation_witness :
    ((⟨0,16⟩ : Span), (none : Option (List Char))) ∈ exDs ∧
    (processFileLoop exDoc exDs).2.1 = 1 ∧
    (processFileLoop exDoc exDs).2.1 = exDs.countP (fun d => d.2.isNone) ∧
    ∃ pre post, (processFileLoop exDoc exDs).1 =
      pre ++ (none : Option (List Char)).getD (sliceSpan exDoc ⟨0,16⟩) ++ post :=
  ⟨by decide, by decide,
   (claim_C2_failure_isolation exDoc "doc".data Fmt.svg Mode.b64 exRenderFail0
      exDs rfl).1,
   (claim_C2_failure_isolation exDoc "doc".data Fmt.svg Mode.b64 exRenderFail0
      exDs rfl).2.2 ⟨0,16⟩ none (by decide)⟩

/-- Claim C3, counterexample: `exDoc` has two diagrams with spans starting at
0 and 19, in that document order, but the loop's render/progress trace is
`[19, 0]` — the diagram with the largest start is rendered first, not the one
with the smallest start, refuting forward render order. -/
theorem claim_C3_counterexample :
    (spansOf exDoc).map Span.start = [0, 19] ∧
    (processFileLoop exDoc exDsOk).2.2 = [19, 0] ∧
    (processFileLoop exDoc exDsOk).2.2.head? ≠ some 0 := by decide

/-- Claim C3 as amended: the render orchestration (renderer invocation and
progress message) is performed once per matched block in reverse document
order — the diagram with the largest span start is rendered first and the one
with the smallest span start last. -/
theorem claim_C3_amended_reverse_order (doc base : List Char) (fmt : Fmt)
    (mode : Mode) (render : Nat → Option RenderOut) :
    (processFileLoop doc
        (decisionsFrom fmt mode base render 0 (spansOf doc))).2.2 =
      ((spansOf doc).map Span.start).reverse := by
  rw [processFileLoop_trace]
  have h1 := decisionsFrom_map_fst fmt mode base render (spansOf doc) 0
  have h2 : (decisionsFrom fmt mode base render 0 (spansOf doc)).map
      (fun d => d.1.start) = (spansOf doc).map Span.start := by
    conv_rhs => rw [← h1]
    rw [List.map_map]
    rfl
  rw [h2]

/-- Claim C4 (vector replacement shaping): in svg mode every successfully
rendered diagram's replacement is exactly a newline, the vector markup, and a
newline; and every matched span starts right after a line terminator (or at
position 0) and ends right before a line terminator (or at the document end),
so in the spliced document the markup is separated from the surrounding
content by an empty line on each side. -/
theorem claim_C4_vector_replacement (mode : Mode) (base : List Char) (i : Nat)
    (ro : RenderOut) (doc : List Char) (m : MMatch)
    (hm : m ∈ mermaidMatches doc) :
    shape Fmt.svg mode base i ro = some ('\n' :: (ro.svgMarkup ++ ['\n'])) ∧
    (m.start = 0 ∨ ∃ c, doc[m.start - 1]? = some c ∧ lineTerm c = true) ∧
    (m.me = doc.length ∨ ∃ c, doc[m.me]? = some c ∧ lineTerm c = true) := by
  have h := matchAt_sound (mermaidMatches_mem_sound hm)
  exact ⟨rfl, caretAt_spec h.2.1, dollarAt_spec h.2.2.2.2.2.2.2.2⟩

theorem claim_C4_vector_replacement_witness :
    (⟨0,11,13,16⟩ : MMatch) ∈ mermaidMatches exDoc ∧
    (shape Fmt.svg Mode.b64 "doc".data 0 ⟨"<svg/>".data, none⟩ =
       some ('\n' :: ("<svg/>".data ++ ['\n'])) ∧
     ((⟨0,11,13,16⟩ : MMatch).start = 0 ∨
       ∃ c, exDoc[(⟨0,11,13,16⟩ : MMatch).start - 1]? = some c ∧
         lineTerm c = true) ∧
     ((⟨0,11,13,16⟩ : MMatch).me = exDoc.length ∨
       ∃ c, exDoc[(⟨0,11,13,16⟩ : MMatch).me]? = some c ∧
         lineTerm c = true)) :=
  ⟨by decide,
   claim_C4_vector_replacement Mode.b64 "doc".data 0 ⟨"<svg/>".data, none⟩
     exDoc ⟨0,11,13,16⟩ (by decide)⟩

/-- Claim C5 (device scale factor): with `--scale` absent the session scale is
2; any numeric `--scale` is clamped into 1–4 (never rejected), so every
defined scale lies in the valid range; and the fatal error occurs exactly
when the parse is non-numeric (`NaN`). -/
theorem claim_C5_scale :
    scaleOf none = some 2 ∧
    (∀ a r, rawScale a = some r → scaleOf a = some (max 1 (min 4 r))) ∧
    (∀ a v, scaleOf a = some v → 1 ≤ v ∧ v ≤ 4) ∧
    (∀ a, scaleOf a = none ↔ rawScale a = none) := by
  refine ⟨by decide, ?_, ?_, ?_⟩
  · intro a r h
    simp [scaleOf, h]
  · intro a v h
    simp only [scaleOf, Option.map_eq_some'] at h
    obtain ⟨r, _, hv⟩ := h
    subst hv
    exact ⟨le_max_left 1 _, max_le (by norm_num) (min_le_left 4 r)⟩
  · intro a
    simp [scaleOf]

theorem claim_C5_scale_witness :
    rawScale (some "9".data) = some 9 ∧
    scaleOf (some "9".data) = some (max 1 (min 4 (9 : Int))) :=
  ⟨by decide, claim_C5_scale.2.1 (some "9".data) 9 (by decide)⟩

/-- Claim C6 (fence anchoring): every emitted match has its opening
`\`\`\`mermaid` fence anchored at a line start and a line-anchored closing
`\`\`\`` fence after it (so a fence token occurring mid-line is never matched
as a diagram boundary, and an opening fence with no line-anchored closing
fence cannot yield a match); concretely, an unterminated opening fence and a
mid-line fence yield no match, and a document with zero matches yields the
empty sequence rather than an error. -/
theorem claim_C6_fence_anchoring :
    (∀ (doc : List Char) (m : MMatch), m ∈ mermaidMatches doc →
      caretAt doc m.start = true ∧ caretAt doc m.ce = true ∧
      FENCE_OPEN.isPrefixOf (doc.drop m.start) = true ∧
      FENCE_CLOSE.isPrefixOf (doc.drop m.ce) = true ∧ m.start < m.ce) ∧
    mermaidMatches "```mermaid\nfoo".data = [] ∧
    mermaidMatches "text ```mermaid\nfoo\n``` more".data = [] ∧
    mermaidMatches "no diagrams here".data = [] := by
  refine ⟨?_, by decide, by decide, by decide⟩
  intro doc m hm
  have h := matchAt_sound (mermaidMatches_mem_sound hm)
  have h4 := h.2.2.2.1
  have h5 := h.2.2.2.2.1
  exact ⟨h.2.1, h.2.2.2.2.2.2.1, h.2.2.1, h.2.2.2.2.2.2.2.1, by omega⟩

theorem claim_C6_fence_anchoring_witness :
    (⟨0,11,13,16⟩ : MMatch) ∈ mermaidMatches exDoc ∧
    (caretAt exDoc (⟨0,11,13,16⟩ : MMatch).start = true ∧
     caretAt exDoc (⟨0,11,13,16⟩ : MMatch).ce = true ∧
     FENCE_OPEN.isPrefixOf (exDoc.drop (⟨0,11,13,16⟩ : MMatch).start) = true ∧
     FENCE_CLOSE.isPrefixOf (exDoc.drop (⟨0,11,13,16⟩ : MMatch).ce) = true ∧
     (⟨0,11,13,16⟩ : MMatch).start < (⟨0,11,13,16⟩ : MMatch).ce) :=
  ⟨by decide, claim_C6_fence_anchoring.1 exDoc ⟨0,11,13,16⟩ (by decide)⟩

/-- Claim C7 (span invariant): for every document, the span list derived from
the locator's matches (start = match index, stop = start + matched length)
has `start ≤ stop` for each span and is pairwise non-overlapping
(`a.stop ≤ b.start`) and strictly increasing by start, in discovery
(document) order. -/
theorem claim_C7_span_invariant (doc : List Char) :
    (∀ sp ∈ spansOf doc, sp.start ≤ sp.stop) ∧
    (spansOf doc).Pairwise
      (fun a b => a.start < b.start ∧ a.stop ≤ b.start) := by
  constructor
  · intro sp hsp
    obtain ⟨m, hm, hms⟩ := List.mem_map.mp hsp
    have h := matchAt_sound (mermaidMatches_mem_sound hm)
    have h4 := h.2.2.2.1
    have h5 := h.2.2.2.2.1
    have h6 := h.2.2.2.2.2.1
    cases hms
    show m.start ≤ m.me
    omega
  · unfold spansOf
    rw [List.pairwise_map]
    exact (ChainFrom_pairwise 0 (mermaidMatches_chain doc)).imp
      (fun h => ⟨h.1, h.2⟩)

theorem claim_C7_span_invariant_witness :
    (⟨0,16⟩ : Span) ∈ spansOf exDoc ∧ (⟨0,16⟩ : Span).start ≤ (⟨0,16⟩ : Span).stop ∧
    (spansOf exDoc).Pairwise
      (fun a b => a.start < b.start ∧ a.stop ≤ b.start) :=
  ⟨by decide, (claim_C7_span_invariant exDoc).1 ⟨0,16⟩ (by decide),
   (claim_C7_span_invariant exDoc).2⟩

/-- Claim C8 (naming convention, bit-exact): the output path is
`dir/base_mermaid2svg.ext` in vector mode and `dir/base_mermaid2jpg.ext` in
raster mode; in raster external-file mode the diagram at 0-based document
index `i` is written to `dir/mermaid/base-(i+1).jpg` and replaced by
`![Diagram (i+1)](./mermaid/base-(i+1).jpg)`; in raster inline mode the
replacement is `![Diagram (i+1)](data:image/jpeg;base64,(data))`; the `k`-th
decision carries the `k`-th span in document order with ordinal `k+1`; and
the spec's `architecture.md` examples hold bit-exactly. -/
theorem claim_C8_naming (dir base ext svgM data : List Char) (i k : Nat)
    (fmt : Fmt) (mode : Mode) (render : Nat → Option RenderOut)
    (spans : List Span) :
    outPath dir base ext Fmt.svg =
      dir ++ "/".data ++ base ++ "_mermaid2svg".data ++ ext ∧
    outPath dir base ext Fmt.jpg =
      dir ++ "/".data ++ base ++ "_mermaid2jpg".data ++ ext ∧
    diagramFilePath dir base i =
      dir ++ "/".data ++ "mermaid".data ++ "/".data ++ base ++ "-".data ++
        (Nat.repr (i+1)).data ++ ".jpg".data ∧
    shape Fmt.jpg Mode.files base i ⟨svgM, some data⟩ =
      some ("![Diagram ".data ++ (Nat.repr (i+1)).data ++
        "](./mermaid/".data ++ base ++ "-".data ++ (Nat.repr (i+1)).data ++
        ".jpg)".data) ∧
    shape Fmt.jpg Mode.b64 base i ⟨svgM, some data⟩ =
      some ("![Diagram ".data ++ (Nat.repr (i+1)).data ++
        "](data:image/jpeg;base64,".data ++ data ++ ")".data) ∧
    (decisionsFrom fmt mode base render 0 spans)[k]? =
      spans[k]?.map (fun sp =>
        (sp, (render k).bind (shape fmt mode base k))) ∧
    outPath "docs".data "architecture".data ".md".data Fmt.jpg =
      "docs/architecture_mermaid2jpg.md".data ∧
    outPath "docs".data "architecture".data ".md".data Fmt.svg =
      "docs/architecture_mermaid2svg.md".data ∧
    shape Fmt.jpg Mode.files "architecture".data 0 ⟨svgM, some data⟩ =
      some "![Diagram 1](./mermaid/architecture-1.jpg)".data := by
  refine ⟨by simp [outPath, joinPath], by simp [outPath, joinPath], ?_,
    by rfl, by rfl, ?_, by decide, by decide, by rfl⟩
  · simp [diagramFilePath, joinPath, List.append_assoc]
  · simpa using decisionsFrom_getElem? fmt mode base render spans 0 k

/-- Claim C9 (output-file production condition): `processFile` produces an
output record exactly when the document has at least one match; when every
render throws, the output text equals the original document; and `main`
counts a document as processed exactly when an output was produced. -/
theorem claim_C9_output_condition (fmt : Fmt) (mode : Mode)
    (render : Nat → Option RenderOut) (dir base ext content : List Char) :
    ((processFileModel fmt mode render dir base ext content).isSome ↔
      mermaidMatches content ≠ []) ∧
    ((∀ j, render j = none) → ∀ path text fails,
      processFileModel fmt mode render dir base ext content =
        some (path, text, fails) → text = content) ∧
    processedCount fmt mode render dir base ext [content] =
      (if (processFileModel fmt mode render dir base ext content).isSome
        then 1 else 0) := by
  refine ⟨?_, ?_, ?_⟩
  · by_cases h : (spansOf content).isEmpty
    · have hm : mermaidMatches content = [] := by
        cases hmm : mermaidMatches content with
        | nil => rfl
        | cons a l =>
          exfalso
          unfold spansOf at h
          rw [hmm] at h
          exact absurd h (by simp)
      simp [processFileModel, h, hm]
    · have hm : mermaidMatches content ≠ [] := by
        intro hc
        apply h
        unfold spansOf
        rw [hc]
        rfl
      simp [processFileModel, h, hm]
  · intro hr path text fails heq
    unfold processFileModel at heq
    dsimp only at heq
    by_cases h : (spansOf content).isEmpty
    · simp [h] at heq
    · rw [if_neg h, Option.some_inj] at heq
      have htext := congrArg (fun t => t.2.1) heq
      have hall : ∀ d ∈ decisionsFrom fmt mode base render 0 (spansOf content),
          d.2 = none :=
        fun d hd =>
          decisionsFrom_allNone fmt mode base render hr (spansOf content) 0 d hd
      have hloop := processFileLoop_allNone content _ hall
      dsimp only at htext
      rw [← htext, hloop]
  · simp [processedCount, List.countP_cons, List.countP_nil]

theorem claim_C9_output_condition_witness :
    processFileModel Fmt.svg Mode.b64 exRenderNone "d".data "b".data
      ".md".data exDoc = some ("d/b_mermaid2svg.md".data, exDoc, 2) ∧
    exDoc = exDoc :=
  ⟨by decide,
   (claim_C9_output_condition Fmt.svg Mode.b64 exRenderNone "d".data "b".data
      ".md".data exDoc).2.1 (fun j => rfl) "d/b_mermaid2svg.md".data exDoc 2
      (by decide)⟩

/-- Claim C10 (document discovery filter): a directory walk selects exactly
the file entries whose names end in `.md` and do not contain `_mermaid2`
(joined to their directory path, in listing order), so every selected path's
file name lacks the `_mermaid2` output marker; while a single file path is
taken as-is with no filter, whatever its name. -/
theorem claim_C10_discovery_filter (es entries : List FSEntry)
    (d mdPath : List Char) :
    collectMarkdownFiles d es =
      ((allFiles d es).filter (fun e => mdFilter e.2)).map
        (fun e => joinPath e.1 e.2) ∧
    (∀ x ∈ collectMarkdownFiles d es, ∃ p n, x = joinPath p n ∧
      ".md".data.isSuffixOf n = true ∧
      listIncludes "_mermaid2".data n = false) ∧
    discover false mdPath entries = [mdPath] := by
  refine ⟨collect_eq_filter es d, ?_, rfl⟩
  intro x hx
  rw [collect_eq_filter es d] at hx
  obtain ⟨e, he, hex⟩ := List.mem_map.mp hx
  have hef := List.mem_filter.mp he
  have hmd := hef.2
  simp only [mdFilter, Bool.and_eq_true, Bool.not_eq_true'] at hmd
  exact ⟨e.1, e.2, hex.symm, hmd.1, hmd.2⟩

theorem claim_C10_discovery_filter_witness :
    collectMarkdownFiles "root".data exTree =
      ["root/a.md".data, "root/sub/b.md".data] ∧
    "root/a.md".data ∈ collectMarkdownFiles "root".data exTree ∧
    (∃ p n, "root/a.md".data = joinPath p n ∧
      ".md".data.isSuffixOf n = true ∧
      listIncludes "_mermaid2".data n = false) ∧
    discover false "x_mermaid2svg.md".data exTree =
      ["x_mermaid2svg.md".data] := by
  have hc : collectMarkdownFiles "root".data exTree =
      ["root/a.md".data, "root/sub/b.md".data] := by
    simp only [exTree, collectMarkdownFiles]
    decide
  refine ⟨hc, by rw [hc]; decide, ?_, ?_⟩
  · exact (claim_C10_discovery_filter exTree exTree "root".data
      "x_mermaid2svg.md".data).2.1 "root/a.md".data (by rw [hc]; decide)
  · exact (claim_C10_discovery_filter exTree exTree "root".data
      "x_mermaid2svg.md".data).2.2

end Mermaid2Img
